import Mathlib

/-!
Shallow embedding of `src/overreact/simulate.py` (module `overreact.simulate`).

The module builds a mass-action rate function from a stoichiometric scheme
(`get_dydt`) and integrates it over time (`get_y`).  Machine floats are
modelled by exact rationals `ℚ`; `np.min`/`np.max` over a possibly empty
array are modelled by `Option`-returning functions (`none` = the `ValueError`
numpy raises on an empty reduction).
-/

namespace Overreact

/-- `np.min(l)`: smallest entry, error (`none`) on an empty array. -/
def npMin (l : List ℚ) : Option ℚ := l.min?

/-- `np.max(l)`: largest entry, error (`none`) on an empty array. -/
def npMax (l : List ℚ) : Option ℚ := l.max?

/-- Boolean-mask indexing `k[flags]`: the entries of `k` whose flag is set,
in order (numpy fancy indexing with a boolean mask of matching length). -/
def boolMask (flags : List Bool) (k : List ℚ) : List ℚ :=
  (flags.zip k).filterMap fun p => if p.1 then some p.2 else none

/-- The rate-constant adjustment performed by `get_dydt` on the copy `k_adj`
of `k`
(`simulate.py` lines 164-178):

    if np.any(is_half_equilibrium) and np.any(~is_half_equilibrium):
        k_adj[is_half_equilibrium] *= ef * (
            k_adj[~is_half_equilibrium].max() / k_adj[is_half_equilibrium].min()
        )

The scale factor is computed from `k_adj` before any entry is written, so it
uses the original values.  The unreachable fallback (a mask reduction on an
empty selection, impossible when the guard holds and lengths agree) leaves
`k` unchanged. -/
def k_adj_of (flags : List Bool) (ef : ℚ) (k : List ℚ) : List ℚ :=
  if (flags.any fun b => b) ∧ (flags.any fun b => !b) then
    match npMax (boolMask (flags.map fun b => !b) k), npMin (boolMask flags k) with
    | some maxNonEq, some minHalfEq =>
        (flags.zip k).map fun p =>
          if p.1 then p.2 * (ef * (maxNonEq / minHalfEq)) else p.2
    | _, _ => k
  else k

/-- The exponent matrix entry `np.where(A > 0, 0, -A)` of `_dydt`
(`simulate.py` line 181): `0` where the stoichiometric coefficient is
positive, `-A[i,j]` elsewhere. -/
def expo (a : ℤ) : ℕ := (if 0 < a then 0 else -a).toNat

/-- Reaction rate `r[j] = k[j] * prod_i y[i] ** expo(A[i,j])`
(`simulate.py` line 181, row `j` of the product reduction).  `nS` is the
number of species (rows of `A`). -/
def reactionRate (nS : ℕ) (A : ℕ → ℕ → ℤ) (k : ℕ → ℚ) (y : ℕ → ℚ) (j : ℕ) : ℚ :=
  k j * ∏ i ∈ Finset.range nS, y i ^ expo (A i j)

/-- The rate function `_dydt(t, y) = np.dot(A, r)` returned by `get_dydt`
(`simulate.py` lines 180-182): species `i` changes at the stoichiometrically
weighted sum of all reaction rates.  The time argument `t` is accepted and
ignored, as in the source. -/
def _dydt (nS nR : ℕ) (A : ℕ → ℕ → ℤ) (k : ℕ → ℚ) (_t : ℚ) (y : ℕ → ℚ) (i : ℕ) : ℚ :=
  ∑ j ∈ Finset.range nR, (A i j : ℚ) * reactionRate nS A k y j

/-- The spec's own statement of the mass-action reaction rate (spec §4.1
step 3): `r_j = k_adj[j] * product over species i of y[i] ** max(0, -A[i,j])`.
Written from the spec's words, to be compared with `reactionRate` above,
which follows the source's `np.where(A > 0, 0, -A)` formulation. -/
def specMassActionRate (nS : ℕ) (A : ℕ → ℕ → ℤ) (k : ℕ → ℚ) (y : ℕ → ℚ)
    (j : ℕ) : ℚ :=
  k j * ∏ i ∈ Finset.range nS, y i ^ (max 0 (-A i j)).toNat

/-- The spec's statement of the full rate function (spec §4.1 step 3):
`dy/dt = A · r` with `r` as in `specMassActionRate`. -/
def spec_dydt (nS nR : ℕ) (A : ℕ → ℕ → ℤ) (k : ℕ → ℚ) (_t : ℚ) (y : ℕ → ℚ)
    (i : ℕ) : ℚ :=
  ∑ j ∈ Finset.range nR, (A i j : ℚ) * specMassActionRate nS A k y j

/-- `y0[np.nonzero(y0)]`: the nonzero entries of `y0`, in order. -/
def nonzeroEntries (y0 : List ℚ) : List ℚ := y0.filter fun x => x ≠ 0

/-- The numerator of the half-life estimate of `get_y`
(`simulate.py` lines 86-92):

    np.max([np.max(y0) / 2.0, np.log(2.0), 1.0 / np.min(y0[np.nonzero(y0)])])

`ln2` stands for the float constant `np.log(2.0)`; both reductions on `y0`
propagate numpy's empty-array error as `none`. -/
def halflife_numerator (ln2 : ℚ) (y0 : List ℚ) : Option ℚ :=
  match npMax y0, npMin (nonzeroEntries y0) with
  | some maxY, some minNZ => some (max (max (maxY / 2) ln2) (1 / minNZ))
  | _, _ => none

/-- The half-life estimate of `get_y` when the rate function carries a `k`
attribute (`simulate.py` lines 85-94): the numerator above divided by
`np.min(dydt.k)`. -/
def halflife_estimate (ln2 : ℚ) (y0 : List ℚ) (k : List ℚ) : Option ℚ :=
  match halflife_numerator ln2 y0, npMin k with
  | some numer, some minK => some (numer / minK)
  | _, _ => none

/-- The automatic time span chosen by `get_y` when `t_span is None`
(`simulate.py` lines 80-99): `[0, 10 * halflife]`, where the half-life is
estimated from `dydt.k` when that attribute exists (`hasK`) and defaults to
`1.0` otherwise. -/
def t_span_estimate (hasK : Bool) (ln2 : ℚ) (y0 : List ℚ) (k : List ℚ) :
    Option (ℚ × ℚ) :=
  if hasK then
    (halflife_estimate ln2 y0 k).map fun h => (0, 10 * h)
  else some (0, 10 * 1)

/-- `get_dydt` contains no warning-emission statement: its docstring promises
a `RuntimeWarning` when the slowest half equilibrium stays slower than the
fastest non half equilibrium, but the function body (`simulate.py` lines
163-185) never calls `warnings.warn` or any logging primitive, so no run of
`get_dydt` emits a diagnostic. -/
def get_dydt_warns (_flags : List Bool) (_k : List ℚ) (_ef : ℚ) : Bool := false

/-! ### The array store of `get_dydt`

`get_dydt` receives the caller's array `k` and builds its adjusted copy with
`k_adj = np.asanyarray(k).copy()` followed by an in-place masked `*=` on
`k_adj`.  To state the frame property (the caller's array is untouched) we
model the heap of numpy arrays explicitly: a store of cells, where
`np.asanyarray` on an array is the identity (an alias, no copy), `.copy()`
allocates a fresh cell, and the masked `*=` writes only its target cell. -/

structure Store where
  cells : List (List ℚ)

/-- Read the array held by reference `r` (a dangling reference reads `[]`). -/
def readArr (s : Store) (r : ℕ) : List ℚ := s.cells.getD r []

/-- `.copy()` / fresh allocation: appends a new cell, returns its reference. -/
def allocArr (s : Store) (v : List ℚ) : Store × ℕ :=
  (⟨s.cells ++ [v]⟩, s.cells.length)

/-- An in-place write (`*=`) to the cell at reference `r`. -/
def writeArr (s : Store) (r : ℕ) (v : List ℚ) : Store := ⟨s.cells.set r v⟩

/-- The stateful part of `get_dydt` (`simulate.py` lines 163-184):
read the caller's `k`, copy it into a fresh array `k_adj`, apply the
conditional masked scaling in place on `k_adj`, and hand back the reference
the closure (and the `.k` attribute) retains. -/
def get_dydt_st (s : Store) (kRef : ℕ) (flags : List Bool) (ef : ℚ) :
    Store × ℕ :=
  let kVal := readArr s kRef
  let alloc := allocArr s kVal
  let s2 := writeArr alloc.1 alloc.2 (k_adj_of flags ef kVal)
  (s2, alloc.2)

/-! ### The rate-trajectory wrapper `r` of `get_y`

`get_y` returns, besides the dense solution `y`, the function

    def r(t):
        try:
            return np.array([dydt(_t, _y) for _t, _y in zip(t, y(t).T)]).T
        except TypeError:
            return dydt(t, y(t))

A scalar `t` is not iterable, so `zip` raises `TypeError` and the scalar
branch runs; an array input takes the vectorized branch.  The dense solution
is modelled by its scalar evaluation `ysol : ℚ → List ℚ`; per the
dense-solution contract (spec §3: a matrix with one column per queried time),
`y(ts).T` for an array of times is the row-per-time list `ts.map ysol`. -/

/-- A time argument to `r`: a scalar float or an array of times. -/
inductive TimeArg
  | scalar : ℚ → TimeArg
  | array : List ℚ → TimeArg

/-- The result of `r`: a rate vector (scalar call) or a matrix stored as one
column per queried time (array call, after the final transpose). -/
inductive REval
  | vec : List ℚ → REval
  | mat : List (List ℚ) → REval

/-- The dual-mode dispatch of `r` (`simulate.py` lines 105-111). -/
def r_dispatch (dydt : ℚ → List ℚ → List ℚ) (ysol : ℚ → List ℚ) :
    TimeArg → REval
  | TimeArg.scalar t => REval.vec (dydt t (ysol t))
  | TimeArg.array ts =>
      REval.mat ((ts.zip (ts.map ysol)).map fun p => dydt p.1 p.2)

/-! ## Helper lemmas -/

/-- Characterization of `np.min` on rationals: the returned value is an entry
and a lower bound. -/
theorem npMin_eq_some_iff {a : ℚ} {xs : List ℚ} :
    npMin xs = some a ↔ a ∈ xs ∧ ∀ b ∈ xs, a ≤ b :=
  @List.min?_eq_some_iff ℚ a _ _ ⟨fun h h2 => le_antisymm h h2⟩
    (fun _ => le_refl _) min_choice (fun _ _ _ => le_min_iff) xs

/-- Characterization of `np.max` on rationals: the returned value is an entry
and an upper bound. -/
theorem npMax_eq_some_iff {a : ℚ} {xs : List ℚ} :
    npMax xs = some a ↔ a ∈ xs ∧ ∀ b ∈ xs, b ≤ a :=
  @List.max?_eq_some_iff ℚ a _ _ ⟨fun h h2 => le_antisymm h h2⟩
    (fun _ => le_refl _) max_choice (fun _ _ _ => max_le_iff) xs

/-- The exponent used by the source, `np.where(A > 0, 0, -A)`, agrees with
the spec's `max(0, -A)` on every integer coefficient. -/
theorem expo_eq_max_toNat (a : ℤ) : expo a = (max 0 (-a)).toNat := by
  unfold expo
  split <;> omega

/-! ## Claims -/

/-- C2: for every stoichiometric matrix `A` (integer entries), adjusted rate
constants `k`, time `t` and state `y`, the rate function built by `get_dydt`
computes exactly the spec's mass-action law `A · r` with
`r_j = k[j] * prod_i y[i] ** max(0, -A[i,j])`. -/
theorem dydt_is_mass_action (nS nR : ℕ) (A : ℕ → ℕ → ℤ) (k : ℕ → ℚ) (t : ℚ)
    (y : ℕ → ℚ) (i : ℕ) :
    _dydt nS nR A k t y i = spec_dydt nS nR A k t y i := by
  unfold _dydt spec_dydt reactionRate specMassActionRate
  refine Finset.sum_congr rfl fun j _ => ?_
  congr 1
  congr 1
  refine Finset.prod_congr rfl fun s _ => ?_
  rw [expo_eq_max_toNat]

/-- C4: for every scheme whose stoichiometric matrix has each column summing
to zero, the total concentration is conserved: the species-wise sum of the
rate function vanishes at every time and state. -/
theorem dydt_mass_conservation (nS nR : ℕ) (A : ℕ → ℕ → ℤ) (k : ℕ → ℚ)
    (hA : ∀ j < nR, ∑ i ∈ Finset.range nS, A i j = 0) (t : ℚ) (y : ℕ → ℚ) :
    ∑ i ∈ Finset.range nS, _dydt nS nR A k t y i = 0 := by
  unfold _dydt
  rw [Finset.sum_comm]
  refine Finset.sum_eq_zero fun j hj => ?_
  rw [← Finset.sum_mul]
  have h0 : ((∑ i ∈ Finset.range nS, A i j : ℤ) : ℚ) = 0 := by
    rw [hA j (Finset.mem_range.mp hj)]; norm_num
  push_cast at h0
  rw [h0, zero_mul]

/-- A ⇌ B as parsed into a stoichiometric matrix: species rows A, B;
reaction columns forward, backward. -/
def abMatrix : ℕ → ℕ → ℤ := fun i j =>
  if i = 0 then (if j = 0 then -1 else 1) else (if j = 0 then 1 else -1)

/-- Witness for C4 at the scheme A ⇌ B with unit rate constants. -/
theorem dydt_mass_conservation_witness :
    (∀ j < 2, ∑ i ∈ Finset.range 2, abMatrix i j = 0) ∧
    ∑ i ∈ Finset.range 2, _dydt 2 2 abMatrix (fun _ => 1) 0 (fun s => s + 1) i = 0 :=
  ⟨by decide, dydt_mass_conservation 2 2 abMatrix (fun _ => 1) (by decide) 0
    (fun s => s + 1)⟩

/-- C9: the rate function is total on states with zero entries, and a species
with concentration zero that is consumed by reaction `j` (negative
stoichiometric coefficient, hence positive exponent) forces that reaction's
rate to zero. -/
theorem reactionRate_zero_species (nS : ℕ) (A : ℕ → ℕ → ℤ) (k : ℕ → ℚ)
    (y : ℕ → ℚ) (i j : ℕ) (hi : i < nS) (hneg : A i j < 0) (hy : y i = 0) :
    reactionRate nS A k y j = 0 := by
  unfold reactionRate
  rw [Finset.prod_eq_zero (Finset.mem_range.mpr hi), mul_zero]
  rw [hy]
  apply zero_pow
  unfold expo
  split
  · omega
  · simp only [ne_eq, Int.toNat_eq_zero, not_le]
    omega

/-- Witness for C9: in A ⇌ B with `y = (0, 1)`, the forward reaction, which
consumes the zero-concentration species A, has rate zero. -/
theorem reactionRate_zero_species_witness :
    (0 : ℕ) < 2 ∧ abMatrix 0 0 < 0 ∧
    reactionRate 2 abMatrix (fun _ => 1) (fun s => if s = 0 then 0 else 1) 0 = 0 :=
  ⟨by decide, by decide,
    reactionRate_zero_species 2 abMatrix (fun _ => 1)
      (fun s => if s = 0 then 0 else 1) 0 0 (by decide) (by decide) (by decide)⟩

/-- C7: the rate-trajectory wrapper `r` of `get_y` is scalar/array
consistent: on the one-element array `[t]` it returns the single column
`dydt(t, y(t))`, exactly the vector returned by the scalar call at `t`. -/
theorem r_dispatch_scalar_array_consistent (dydt : ℚ → List ℚ → List ℚ)
    (ysol : ℚ → List ℚ) (t : ℚ) :
    r_dispatch dydt ysol (TimeArg.array [t]) = REval.mat [dydt t (ysol t)] ∧
    r_dispatch dydt ysol (TimeArg.scalar t) = REval.vec (dydt t (ysol t)) :=
  ⟨rfl, rfl⟩

/-- C10: if every entry of `y0` is zero, the automatic time-span estimation
of `get_y` reduces an empty selection (`np.min` over the nonzero entries of
`y0`) and errors out instead of producing a span. -/
theorem t_span_estimate_all_zero (ln2 : ℚ) (y0 k : List ℚ)
    (h : ∀ x ∈ y0, x = 0) :
    t_span_estimate true ln2 y0 k = none := by
  have hnz : nonzeroEntries y0 = [] := by
    unfold nonzeroEntries
    rw [List.filter_eq_nil_iff]
    intro a ha
    simpa using h a ha
  unfold t_span_estimate halflife_estimate halflife_numerator
  rw [hnz]
  cases npMax y0 <;> cases npMin k <;> rfl

/-- Witness for C10 at `y0 = [0, 0]`. -/
theorem t_span_estimate_all_zero_witness :
    (∀ x ∈ ([0, 0] : List ℚ), x = 0) ∧
    t_span_estimate true 1 [0, 0] [2] = none :=
  ⟨by decide, t_span_estimate_all_zero 1 [0, 0] [2] (by decide)⟩

/-- C3: when `t_span` is omitted, `get_y` chooses
`t_span = (0, 10 * halflife)` with
`halflife = max(max(y0)/2, ln 2, 1 / min(nonzero(y0))) / min(dydt.k)`
whenever `dydt` exposes a `k` attribute, and `halflife = 1`, i.e.
`t_span = (0, 10)`, when it does not. -/
theorem get_y_t_span_choice (ln2 : ℚ) (y0 k : List ℚ) :
    (∀ maxY minNZ minK,
      npMax y0 = some maxY → npMin (nonzeroEntries y0) = some minNZ →
      npMin k = some minK →
      t_span_estimate true ln2 y0 k =
        some (0, 10 * (max (max (maxY / 2) ln2) (1 / minNZ) / minK))) ∧
    t_span_estimate false ln2 y0 k = some (0, 10) := by
  constructor
  · intro maxY minNZ minK h1 h2 h3
    unfold t_span_estimate halflife_estimate halflife_numerator
    rw [h1, h2, h3]
    rfl
  · unfold t_span_estimate
    norm_num

/-- Witness for C3 at `y0 = [1, 0]`, `k = [2]`, with `ln 2` stood in by `1`. -/
theorem get_y_t_span_choice_witness :
    t_span_estimate true 1 [1, 0] [2] =
      some (0, 10 * (max (max ((1 : ℚ) / 2) 1) (1 / 1) / 2)) ∧
    t_span_estimate false 1 [1, 0] [2] = some (0, 10) :=
  ⟨(get_y_t_span_choice 1 [1, 0] [2]).1 1 1 2 (by decide) (by decide) (by decide),
    (get_y_t_span_choice 1 [1, 0] [2]).2⟩

/-- A boolean mask with at least one set flag selects at least one entry of
an array of the same length. -/
theorem boolMask_ne_nil :
    ∀ (flags : List Bool) (k : List ℚ), flags.length = k.length →
      flags.any (fun b => b) = true → boolMask flags k ≠ [] := by
  intro flags
  induction flags with
  | nil => intro k _ hany; simp at hany
  | cons f fs ih =>
    intro k hlen hany
    cases k with
    | nil => simp at hlen
    | cons x xs =>
      unfold boolMask
      rw [List.zip_cons_cons, List.filterMap_cons]
      cases hf : f
      · have hany' : fs.any (fun b => b) = true := by
          rw [hf] at hany
          simpa using hany
        have hlen' : fs.length = xs.length := by simpa using hlen
        simp only [hf]
        exact ih xs hlen' hany'
      · simp only [hf]
        exact List.cons_ne_nil x _

/-- C1: when both half-equilibrium and ordinary reactions are present,
`get_dydt` scales every half-equilibrium entry of its rate-constant copy by
`ef * (max k over ordinary reactions / min k over half-equilibrium
reactions)` and leaves every ordinary entry unchanged; when the reactions
are all half-equilibria or none are, the copy equals `k` unchanged. -/
theorem get_dydt_k_scaling (flags : List Bool) (k : List ℚ) (ef : ℚ)
    (hlen : flags.length = k.length) :
    (((flags.any fun b => b) = true ∧ (flags.any fun b => !b) = true) →
      ∃ maxNonEq minHalfEq,
        npMax (boolMask (flags.map fun b => !b) k) = some maxNonEq ∧
        npMin (boolMask flags k) = some minHalfEq ∧
        ∀ i, i < k.length →
          (k_adj_of flags ef k).getD i 0 =
            if flags.getD i false then
              k.getD i 0 * (ef * (maxNonEq / minHalfEq))
            else k.getD i 0) ∧
    (¬((flags.any fun b => b) = true ∧ (flags.any fun b => !b) = true) →
      k_adj_of flags ef k = k) := by
  constructor
  · rintro ⟨hT, hF⟩
    have hneMask : boolMask flags k ≠ [] := boolMask_ne_nil flags k hlen hT
    have hneMaskN : boolMask (flags.map fun b => !b) k ≠ [] := by
      refine boolMask_ne_nil _ k (by simpa using hlen) ?_
      rw [List.any_map]
      simpa [Function.comp] using hF
    obtain ⟨minHalfEq, hm⟩ : ∃ m, npMin (boolMask flags k) = some m := by
      cases h : npMin (boolMask flags k) with
      | none => exact absurd (List.min?_eq_none_iff.mp h) hneMask
      | some m => exact ⟨m, rfl⟩
    obtain ⟨maxNonEq, hM⟩ :
        ∃ m, npMax (boolMask (flags.map fun b => !b) k) = some m := by
      cases h : npMax (boolMask (flags.map fun b => !b) k) with
      | none => exact absurd (List.max?_eq_none_iff.mp h) hneMaskN
      | some m => exact ⟨m, rfl⟩
    refine ⟨maxNonEq, minHalfEq, hM, hm, ?_⟩
    intro i hi
    have hadj : k_adj_of flags ef k =
        (flags.zip k).map fun p =>
          if p.1 then p.2 * (ef * (maxNonEq / minHalfEq)) else p.2 := by
      unfold k_adj_of
      rw [if_pos ⟨hT, hF⟩, hM, hm]
    rw [hadj]
    have hzlen : (flags.zip k).length = k.length := by
      rw [List.length_zip, hlen, min_self]
    have hi2 : i < ((flags.zip k).map fun p =>
        if p.1 then p.2 * (ef * (maxNonEq / minHalfEq)) else p.2).length := by
      rw [List.length_map, hzlen]; exact hi
    have hif : i < flags.length := by rw [hlen]; exact hi
    rw [List.getD_eq_getElem _ _ hi2, List.getElem_map, List.getElem_zip,
      List.getD_eq_getElem _ _ hif, List.getD_eq_getElem _ _ hi]
  · intro h
    unfold k_adj_of
    rw [if_neg h]

/-- Witness for C1: flags `[half-equilibrium, ordinary]`, `k = [3, 5]`,
`ef = 1000`: the half-equilibrium entry is scaled by `1000 * (5 / 3)`, the
ordinary entry is untouched. -/
theorem get_dydt_k_scaling_witness :
    ∃ maxNonEq minHalfEq,
      npMax (boolMask (([true, false] : List Bool).map fun b => !b)
        ([3, 5] : List ℚ)) = some maxNonEq ∧
      npMin (boolMask [true, false] ([3, 5] : List ℚ)) = some minHalfEq ∧
      ∀ i, i < ([3, 5] : List ℚ).length →
        (k_adj_of [true, false] 1000 [3, 5]).getD i 0 =
          if ([true, false] : List Bool).getD i false then
            ([3, 5] : List ℚ).getD i 0 * (1000 * (maxNonEq / minHalfEq))
          else ([3, 5] : List ℚ).getD i 0 :=
  (get_dydt_k_scaling [true, false] [3, 5] 1000 (by decide)).1
    ⟨by decide, by decide⟩

/-- C6: `get_dydt` never mutates the caller's rate-constant array: all
adjustment happens on the freshly allocated copy, so after the call the cell
holding the caller's `k` reads exactly as before. -/
theorem get_dydt_preserves_caller_k (s : Store) (kRef : ℕ) (flags : List Bool)
    (ef : ℚ) (h : kRef < s.cells.length) :
    readArr (get_dydt_st s kRef flags ef).1 kRef = readArr s kRef := by
  unfold get_dydt_st allocArr writeArr readArr
  simp only
  rw [List.getD_eq_getElem?_getD, List.getD_eq_getElem?_getD,
    List.getElem?_set_ne (by omega), List.getElem?_append]
  rw [if_pos h]

/-- Witness for C6 on a one-cell store holding `k = [1, 2]`. -/
theorem get_dydt_preserves_caller_k_witness :
    readArr (get_dydt_st ⟨[[1, 2]]⟩ 0 [true] 5).1 0 = readArr ⟨[[1, 2]]⟩ 0 :=
  get_dydt_preserves_caller_k ⟨[[1, 2]]⟩ 0 [true] 5 (by decide)

/-- C8: halving the smallest rate constant (holding `y0`, and hence the
half-life numerator, fixed) does not decrease the automatically estimated
upper end of the time span. -/
theorem t_span_estimate_monotone (ln2 : ℚ) (y0 : List ℚ) (l1 l2 : List ℚ)
    (m numer : ℚ) (hNum : halflife_numerator ln2 y0 = some numer)
    (hN0 : 0 ≤ numer) (hmin : npMin (l1 ++ m :: l2) = some m) (hm : 0 < m) :
    t_span_estimate true ln2 y0 (l1 ++ m :: l2) = some (0, 10 * (numer / m)) ∧
    t_span_estimate true ln2 y0 (l1 ++ m / 2 :: l2) =
      some (0, 10 * (numer / (m / 2))) ∧
    10 * (numer / m) ≤ 10 * (numer / (m / 2)) := by
  have hbound := (npMin_eq_some_iff.mp hmin).2
  have hmin' : npMin (l1 ++ m / 2 :: l2) = some (m / 2) := by
    rw [npMin_eq_some_iff]
    constructor
    · exact List.mem_append_right _ (List.mem_cons_self _ _)
    · intro b hb
      rcases List.mem_append.mp hb with hb1 | hb2
      · have : m ≤ b := hbound b (List.mem_append_left _ hb1)
        linarith
      · rcases List.mem_cons.mp hb2 with rfl | hb3
        · linarith
        · have : m ≤ b :=
            hbound b (List.mem_append_right _ (List.mem_cons_of_mem _ hb3))
          linarith
  refine ⟨?_, ?_, ?_⟩
  · unfold t_span_estimate halflife_estimate
    rw [hNum, hmin]
    rfl
  · unfold t_span_estimate halflife_estimate
    rw [hNum, hmin']
    rfl
  · have hdiv : numer / (m / 2) = 2 * (numer / m) := by
      field_simp
      ring
    have hnn : 0 ≤ numer / m := div_nonneg hN0 hm.le
    rw [hdiv]
    linarith

/-- Witness for C8: `y0 = [1]` (numerator `1`), `k = [2, 4]` halved at its
smallest entry to `[1, 4]`; the estimated span end grows from `5` to `10`. -/
theorem t_span_estimate_monotone_witness :
    t_span_estimate true 1 [1] ([] ++ (2 : ℚ) :: [4]) =
      some (0, 10 * ((1 : ℚ) / 2)) ∧
    t_span_estimate true 1 [1] ([] ++ (2 : ℚ) / 2 :: [4]) =
      some (0, 10 * ((1 : ℚ) / (2 / 2))) ∧
    10 * ((1 : ℚ) / 2) ≤ 10 * ((1 : ℚ) / (2 / 2)) :=
  t_span_estimate_monotone 1 [1] [] [4] 2 1
    (by norm_num [halflife_numerator, npMax, npMin, nonzeroEntries])
    (by norm_num) (by decide) (by norm_num)

/-- C5 (bug record): at flags `[half-equilibrium, ordinary]`, `k = [1, 4]`,
`ef = 1/2`, the scaling path of `get_dydt` runs and the slowest
half-equilibrium rate constant after adjustment (`2`) is still smaller than
the fastest ordinary one (`4`) — the very condition the docstring promises a
`RuntimeWarning` for — yet the function body contains no warning call, so no
diagnostic is emitted. -/
theorem get_dydt_missing_warning :
    k_adj_of [true, false] (1 / 2) [1, 4] = [2, 4] ∧
    npMin (boolMask [true, false] (k_adj_of [true, false] (1 / 2) [1, 4])) =
      some 2 ∧
    npMax (boolMask (([true, false] : List Bool).map fun b => !b)
      (k_adj_of [true, false] (1 / 2) [1, 4])) = some 4 ∧
    (2 : ℚ) < 4 ∧
    get_dydt_warns [true, false] [1, 4] (1 / 2) = false := by
  have hk : k_adj_of [true, false] (1 / 2) [1, 4] = [2, 4] := by
    norm_num [k_adj_of, boolMask, npMax, npMin, List.max?, List.min?,
      List.filterMap_cons, List.foldl]
  refine ⟨hk, ?_, ?_, by norm_num, rfl⟩
  · rw [hk]; decide
  · rw [hk]; decide

end Overreact
